import Mathlib

/-!
Shallow embedding of the chart-geometry, statistics, tick-selection and
conversion logic of the RateSense foreign-exchange dashboard
(`src/script.js`, which contains two renderer variants, and the duplicate
files `src/unnamed/part_000`, `src/unnamed/part_001`).

Numbers are modelled as exact rationals (`ℚ`); series are lists of
`Sample` records, mirroring the JS arrays of `{d, v}` objects.

Variant A is the first renderer in `script.js` (symmetric padding
`P = 36`, `renderStatsAndChart` at lines 186-233, identical to
`src/unnamed/part_001`).  Variant B is the second renderer in
`script.js` (margin record `M = {left:80, right:36, top:20, bottom:60}`,
lines 547-634); the tick selector `tickIdx` appears in variant B and in
`src/unnamed/part_000` with identical code.
-/

namespace RateSense

/-- One point of a series: `{ d, v }` in the JS source (`d` a date string,
`v` a numeric rate). -/
structure Sample where
  d : String
  v : ℚ
deriving DecidableEq, Repr

/-- `const vals = state.series.map(p => p.v);` -/
def values (s : List Sample) : List ℚ := s.map (·.v)

/-- `const hi = Math.max(...vals);` — for a nonempty list this is the
maximum of its elements (the `[]` case is unreachable behind the
`series.length` guard; JS would give `-Infinity`, we give a default). -/
def hi (s : List Sample) : ℚ :=
  match values s with
  | [] => 0
  | v :: vs => vs.foldl max v

/-- `const lo = Math.min(...vals);` — minimum of a nonempty list. -/
def lo (s : List Sample) : ℚ :=
  match values s with
  | [] => 0
  | v :: vs => vs.foldl min v

/-- `const avg = vals.reduce((a,b)=>a+b,0) / vals.length;` -/
def avg (s : List Sample) : ℚ :=
  (values s).foldl (· + ·) 0 / (s.length : ℚ)

/-- Canvas width `W = 1000` (both variants). -/
def W : ℚ := 1000

/-- Canvas height `H = 300` (both variants). -/
def H : ℚ := 300

/-- Variant A symmetric padding `P = 36`. -/
def P : ℚ := 36

/-- Variant B margins `M = { left: 80, right: 36, top: 20, bottom: 60 }`. -/
def Mleft : ℚ := 80

/-- Variant B right margin. -/
def Mright : ℚ := 36

/-- Variant B top margin. -/
def Mtop : ℚ := 20

/-- Variant B bottom margin. -/
def Mbottom : ℚ := 60

/-- `const plotW = W - M.left - M.right;` (variant B). -/
def plotW : ℚ := W - Mleft - Mright

/-- `const plotH = H - M.top - M.bottom;` (variant B). -/
def plotH : ℚ := H - Mtop - Mbottom

/-- Variant A x-mapper, `script.js:204`:
`const xs = (i) => P + (i*(W-2*P))/(state.series.length-1 || 1);`
The JS expression `n-1 || 1` replaces a zero `n-1` by `1`; for the
reachable lengths `n ≥ 1` this is exactly `max (n-1) 1` on naturals. -/
def xsA (n i : ℕ) : ℚ := P + (i * (W - 2 * P)) / (max (n - 1) 1 : ℕ)

/-- Variant A y-mapper, `script.js:205`:
`const ys = (v) => hi === lo ? H/2 : H - P - ((v - lo) * (H - 2*P) / (hi - lo));` -/
def ysA (h l v : ℚ) : ℚ :=
  if h = l then H / 2 else H - P - (v - l) * (H - 2 * P) / (h - l)

/-- Variant B x-mapper, `script.js:568`:
`const xs = (i) => M.left + (i * (plotW) / (state.series.length - 1 || 1));` -/
def xsB (n i : ℕ) : ℚ := Mleft + i * plotW / (max (n - 1) 1 : ℕ)

/-- Variant B y-mapper, `script.js:569`:
`const ys = (v) => hi === lo ? (M.top + plotH/2) : (M.top + plotH - ((v - lo) * plotH / (hi - lo)));` -/
def ysB (h l v : ℚ) : ℚ :=
  if h = l then Mtop + plotH / 2 else Mtop + plotH - (v - l) * plotH / (h - l)

/-- `const xTickCount = Math.min(8, state.series.length);` -/
def xTickCount (n : ℕ) : ℕ := min 8 n

/-- `const step = Math.max(1, Math.floor((state.series.length - 1) / (xTickCount - 1)));`
For `n ≥ 2` the divisor `xTickCount n - 1 ≥ 1` and natural floor division
agrees with `Math.floor` of the positive JS quotient.  For `n = 1` the JS
quotient is `0/0 = NaN` and `step` is `NaN`; the loop below then pushes
index `0` and exits after one iteration, producing `[0]` — the same output
this model produces with `step 1 = max 1 (0/0) = 1` (ℕ division by zero
is zero).  `n = 0` is unreachable (empty series returns early). -/
def step (n : ℕ) : ℕ := max 1 ((n - 1) / (xTickCount n - 1))

/-- The loop `for (let i = 0; i < n; i += step) tickIdx.push(i);`
unrolled: for `s ≥ 1` it visits exactly the multiples
`0, s, 2s, …` below `n`, i.e. `⌈n/s⌉` of them. -/
def strideWalk (n s : ℕ) : List ℕ :=
  (List.range ((n + s - 1) / s)).map (· * s)

/-- `script.js:575-579` (also `src/unnamed/part_000:209-213`):
the stride loop followed by
`if (tickIdx[tickIdx.length - 1] !== state.series.length - 1) tickIdx.push(state.series.length - 1);` -/
def tickIdx (n : ℕ) : List ℕ :=
  let w := strideWalk n (step n)
  if w.getLast? = some (n - 1) then w else w ++ [n - 1]

/-- JS `Array.prototype.findIndex`: index of the first element satisfying
the predicate, `none` for the JS `-1`. -/
def findIndex (p : Sample → Bool) : List Sample → Option ℕ
  | [] => none
  | a :: l => if p a then some 0 else (findIndex p l).map (· + 1)

/-- `const i = state.series.findIndex(p => p.v === val);` inside
`dotAtValue` (`script.js:228-232`, `src/unnamed/part_001:248-252`). -/
def dotIdx (s : List Sample) (val : ℚ) : Option ℕ :=
  findIndex (fun p => p.v = val) s

/-- `const feeFactor = Math.max(0, 1 - (state.feePct/100));` -/
def feeFactor (feePct : ℚ) : ℚ := max 0 (1 - feePct / 100)

/-- `const effectiveRate = r * feeFactor;` (`script.js:238`). -/
def effectiveRate (r feePct : ℚ) : ℚ := r * feeFactor feePct

/-- `const out = state.amount * effectiveRate;` (`script.js:239`). -/
def converted (amount r feePct : ℚ) : ℚ := amount * effectiveRate r feePct

/-- Observable output of variant B's `renderStatsAndChart`: either both
the stat bar and the chart are cleared, or a chart is drawn from the
computed statistics, mapped path points and tick indices. -/
inductive RenderResult where
  | cleared
  | drawn (hiV loV avgV : ℚ) (path : List (ℚ × ℚ))
      (ticks : List ℕ) (hiDot loDot : Option ℕ)
deriving DecidableEq, Repr

/-- Variant B `renderStatsAndChart` (`script.js:547-634`); the guard
`if (!state.series?.length){ els.statbar.innerHTML = ''; els.chart.innerHTML=''; return; }`
returns before any statistic is computed, modelled by producing
`RenderResult.cleared` without touching `hi`/`lo`/`avg`. -/
def renderStatsAndChart (s : List Sample) : RenderResult :=
  if s.length = 0 then .cleared
  else
    .drawn (hi s) (lo s) (avg s)
      ((List.range s.length).map fun i =>
        (xsB s.length i, ysB (hi s) (lo s) ((values s).getD i 0)))
      (tickIdx s.length)
      (dotIdx s (hi s)) (dotIdx s (lo s))

/-- Variant A `renderStatsAndChart` (`script.js:186-233`) has the same
guard line (`script.js:187`) and the `P = 36` geometry; no tick selector. -/
def renderStatsAndChartA (s : List Sample) : RenderResult :=
  if s.length = 0 then .cleared
  else
    .drawn (hi s) (lo s) (avg s)
      ((List.range s.length).map fun i =>
        (xsA s.length i, ysA (hi s) (lo s) ((values s).getD i 0)))
      []
      (dotIdx s (hi s)) (dotIdx s (lo s))

/-- The scenario series of the spec:
`[("2024-01-01",1.10), ("2024-01-02",1.20), ("2024-01-03",1.15)]`. -/
def series3 : List Sample :=
  [⟨"2024-01-01", 11/10⟩, ⟨"2024-01-02", 6/5⟩, ⟨"2024-01-03", 23/20⟩]

end RateSense

namespace RateSense

/-! ### Helper lemmas about the fold-based extrema -/

theorem foldl_max_spec (a : ℚ) (l : List ℚ) :
    l.foldl max a ∈ a :: l ∧ a ≤ l.foldl max a ∧ ∀ x ∈ l, x ≤ l.foldl max a := by
  induction l generalizing a with
  | nil => simp
  | cons b t ih =>
    obtain ⟨hmem, hle, hall⟩ := ih (max a b)
    refine ⟨?_, le_trans (le_max_left a b) hle, ?_⟩
    · rw [List.foldl_cons]
      rcases List.mem_cons.mp hmem with hm | hm
      · rw [hm]
        rcases max_choice a b with hc | hc <;> rw [hc] <;> simp
      · simp only [List.mem_cons]
        exact Or.inr (Or.inr hm)
    · intro x hx
      rcases List.mem_cons.mp hx with rfl | hxt
      · exact le_trans (le_max_right a x) hle
      · exact hall x hxt

theorem foldl_min_spec (a : ℚ) (l : List ℚ) :
    l.foldl min a ∈ a :: l ∧ l.foldl min a ≤ a ∧ ∀ x ∈ l, l.foldl min a ≤ x := by
  induction l generalizing a with
  | nil => simp
  | cons b t ih =>
    obtain ⟨hmem, hle, hall⟩ := ih (min a b)
    refine ⟨?_, le_trans hle (min_le_left a b), ?_⟩
    · rw [List.foldl_cons]
      rcases List.mem_cons.mp hmem with hm | hm
      · rw [hm]
        rcases min_choice a b with hc | hc <;> rw [hc] <;> simp
      · simp only [List.mem_cons]
        exact Or.inr (Or.inr hm)
    · intro x hx
      rcases List.mem_cons.mp hx with rfl | hxt
      · exact le_trans hle (min_le_right a x)
      · exact hall x hxt

theorem hi_spec (s : List Sample) (h : s ≠ []) :
    hi s ∈ values s ∧ ∀ x ∈ values s, x ≤ hi s := by
  cases s with
  | nil => exact absurd rfl h
  | cons p t =>
    have hv : values (p :: t) = p.v :: values t := rfl
    obtain ⟨hmem, _, hall⟩ := foldl_max_spec p.v (values t)
    refine ⟨?_, ?_⟩
    · rw [hv]
      simpa [hi, hv] using hmem
    · intro x hx
      rw [hv] at hx
      rcases List.mem_cons.mp hx with rfl | hxt
      · simpa [hi, hv] using (foldl_max_spec p.v (values t)).2.1
      · simpa [hi, hv] using hall x hxt

theorem lo_spec (s : List Sample) (h : s ≠ []) :
    lo s ∈ values s ∧ ∀ x ∈ values s, lo s ≤ x := by
  cases s with
  | nil => exact absurd rfl h
  | cons p t =>
    have hv : values (p :: t) = p.v :: values t := rfl
    obtain ⟨hmem, _, hall⟩ := foldl_min_spec p.v (values t)
    refine ⟨?_, ?_⟩
    · rw [hv]
      simpa [lo, hv] using hmem
    · intro x hx
      rw [hv] at hx
      rcases List.mem_cons.mp hx with rfl | hxt
      · simpa [lo, hv] using (foldl_min_spec p.v (values t)).2.1
      · simpa [lo, hv] using hall x hxt

theorem lo_le_hi (s : List Sample) (h : s ≠ []) : lo s ≤ hi s := by
  obtain ⟨hmem, _⟩ := hi_spec s h
  exact (lo_spec s h).2 _ hmem

/-! ### Claim theorems -/

/-- C1: for every series whose maximum `hi` equals its minimum `lo`
(a flat series), both y-mappers send every sample value to the vertical
midline of the plot area — top margin plus half the plot height —
without any division by zero (the flat branch performs no division). -/
theorem C1_flat_series_midline (s : List Sample) (hf : hi s = lo s)
    (v : ℚ) (_hv : v ∈ values s) :
    ysA (hi s) (lo s) v = P + (H - 2 * P) / 2 ∧
    ysB (hi s) (lo s) v = Mtop + plotH / 2 := by
  constructor
  · rw [ysA, if_pos hf]
    norm_num [P, H]
  · rw [ysB, if_pos hf]

/-- Witness for C1 at the one-point flat series `[("2024-01-01", 1)]`. -/
theorem C1_flat_series_midline_witness :
    (hi [⟨"2024-01-01", 1⟩] = lo [⟨"2024-01-01", 1⟩] ∧
      (1 : ℚ) ∈ values [⟨"2024-01-01", 1⟩]) ∧
    (ysA (hi [⟨"2024-01-01", 1⟩]) (lo [⟨"2024-01-01", 1⟩]) 1 =
        P + (H - 2 * P) / 2 ∧
      ysB (hi [⟨"2024-01-01", 1⟩]) (lo [⟨"2024-01-01", 1⟩]) 1 =
        Mtop + plotH / 2) :=
  ⟨⟨by simp [hi, lo, values], by simp [values]⟩,
    C1_flat_series_midline _ (by simp [hi, lo, values]) 1 (by simp [values])⟩

/-- C2: for a series of length 1, both x-mappers place index 0 at the
left margin (the `n-1 || 1` guard treats the zero divisor as 1), and the
x-axis tick selector returns exactly the one tick `[0]`. -/
theorem C2_single_point :
    xsA 1 0 = P ∧ xsB 1 0 = Mleft ∧ tickIdx 1 = [0] := by
  refine ⟨?_, ?_, by decide⟩
  · simp [xsA]
  · simp [xsB]

/-- C6: the conversion calculator computes
`effectiveRate = r * max 0 (1 - f/100)` and `converted = a * effectiveRate`;
the fee factor is never negative and is exactly zero for `f > 100`, and
`converted` is the unclamped product `a * (r * max 0 (1 - f/100))`. -/
theorem C6_conversion_formula (r a f : ℚ) :
    effectiveRate r f = r * max 0 (1 - f / 100) ∧
    converted a r f = a * effectiveRate r f ∧
    0 ≤ feeFactor f ∧
    (100 < f → feeFactor f = 0) ∧
    converted a r f = a * (r * max 0 (1 - f / 100)) := by
  refine ⟨rfl, rfl, le_max_left 0 _, ?_, rfl⟩
  intro hf
  rw [feeFactor, max_eq_left (by linarith)]

/-- C7 as stated is false: for the negative rate `r = -1` the effective
rate is *increasing* in the fee percentage (`f1 = 0 ≤ f2 = 50` but
`effectiveRate (-1) 50 = -1/2 > -1 = effectiveRate (-1) 0`), so the
claimed monotonicity does not hold for every rate `r`. -/
theorem C7_counterexample :
    ¬ (∀ r : ℚ,
        (∀ f1 f2 : ℚ, f1 ≤ f2 → effectiveRate r f2 ≤ effectiveRate r f1) ∧
        (∀ f : ℚ, 100 ≤ f → effectiveRate r f = 0)) := by
  intro hcl
  have hm := (hcl (-1)).1 0 50 (by norm_num)
  rw [effectiveRate, effectiveRate, feeFactor, feeFactor] at hm
  norm_num [max_def] at hm

/-- C7 amended: for every fixed *nonnegative* rate `r`, `effectiveRate`
is monotonically non-increasing in the fee percentage, and it equals 0
for every fee `f ≥ 100`. -/
theorem C7_amended_monotone (r : ℚ) (hr : 0 ≤ r) :
    (∀ f1 f2 : ℚ, f1 ≤ f2 → effectiveRate r f2 ≤ effectiveRate r f1) ∧
    (∀ f : ℚ, 100 ≤ f → effectiveRate r f = 0) := by
  constructor
  · intro f1 f2 hf
    apply mul_le_mul_of_nonneg_left _ hr
    exact max_le_max le_rfl (by linarith)
  · intro f hf
    rw [effectiveRate, feeFactor, max_eq_left (by linarith), mul_zero]

/-- Witness for the amended C7 at `r = 1`. -/
theorem C7_amended_monotone_witness :
    (0 : ℚ) ≤ 1 ∧
    ((∀ f1 f2 : ℚ, f1 ≤ f2 → effectiveRate 1 f2 ≤ effectiveRate 1 f1) ∧
      (∀ f : ℚ, 100 ≤ f → effectiveRate 1 f = 0)) :=
  ⟨by norm_num, C7_amended_monotone 1 (by norm_num)⟩

/-- C9: on the empty series both renderer variants return the cleared
result (statistics bar and chart emptied) directly from the length
guard, before any statistic is computed, and raise no error. -/
theorem C9_empty_series_renders_nothing :
    renderStatsAndChart [] = RenderResult.cleared ∧
    renderStatsAndChartA [] = RenderResult.cleared :=
  ⟨rfl, rfl⟩

/-- C4: for every non-empty series the per-render statistics are the
maximum (`hi`), the minimum (`lo`) and the arithmetic mean
(`avg = sum / length`) of the sample values. -/
theorem C4_summary_statistics (s : List Sample) (h : s ≠ []) :
    (hi s ∈ values s ∧ ∀ x ∈ values s, x ≤ hi s) ∧
    (lo s ∈ values s ∧ ∀ x ∈ values s, lo s ≤ x) ∧
    avg s = (values s).sum / (s.length : ℚ) := by
  refine ⟨hi_spec s h, lo_spec s h, ?_⟩
  rw [avg, List.sum_eq_foldl]

/-- Witness for C4 at the scenario series. -/
theorem C4_summary_statistics_witness :
    series3 ≠ [] ∧
    ((hi series3 ∈ values series3 ∧ ∀ x ∈ values series3, x ≤ hi series3) ∧
      (lo series3 ∈ values series3 ∧ ∀ x ∈ values series3, lo series3 ≤ x) ∧
      avg series3 = (values series3).sum / (series3.length : ℚ)) :=
  ⟨by simp [series3], C4_summary_statistics series3 (by simp [series3])⟩

end RateSense

namespace RateSense

/-! ### `findIndex` characterisation -/

theorem findIndex_some_spec (p : Sample → Bool) :
    ∀ (s : List Sample) (i : ℕ), findIndex p s = some i →
      (∃ a, s.get? i = some a ∧ p a = true) ∧
      ∀ j, j < i → ∀ b, s.get? j = some b → p b = false := by
  intro s
  induction s with
  | nil => intro i h; simp [findIndex] at h
  | cons a t ih =>
    intro i h
    by_cases hp : p a
    · rw [findIndex, if_pos hp] at h
      obtain rfl := Option.some.inj h
      exact ⟨⟨a, rfl, hp⟩, fun j hj => absurd hj (Nat.not_lt_zero j)⟩
    · rw [findIndex, if_neg hp] at h
      obtain ⟨i', hi', rfl⟩ := Option.map_eq_some'.mp h
      obtain ⟨⟨b, hb, hpb⟩, hprev⟩ := ih i' hi'
      refine ⟨⟨b, by simpa using hb, hpb⟩, ?_⟩
      intro j hj c hc
      cases j with
      | zero =>
        obtain rfl := Option.some.inj hc
        exact Bool.not_eq_true _ ▸ (by simpa using hp)
      | succ j' =>
        exact hprev j' (by omega) c (by simpa using hc)

theorem findIndex_isSome_of_mem (p : Sample → Bool) (s : List Sample)
    (a : Sample) (ha : a ∈ s) (hpa : p a = true) :
    ∃ i, findIndex p s = some i := by
  induction s with
  | nil => simp at ha
  | cons b t ih =>
    by_cases hp : p b
    · exact ⟨0, by rw [findIndex, if_pos hp]⟩
    · rcases List.mem_cons.mp ha with rfl | hat
      · exact absurd hpa (by simp [hp])
      · obtain ⟨i, hi'⟩ := ih hat
        exact ⟨i + 1, by rw [findIndex, if_neg hp, hi']; rfl⟩

theorem mem_values_iff (s : List Sample) (x : ℚ) :
    x ∈ values s ↔ ∃ a ∈ s, a.v = x := by
  simp [values]

/-- C5: for every non-empty series, the high (resp. low) marker index
returned by the `findIndex`-based dot placement is the lowest index whose
value equals `hi` (resp. `lo`) under exact equality; in the spec scenario
series the high-marker index is 1 and the low-marker index is 0. -/
theorem C5_first_extreme_marker (s : List Sample) (h : s ≠ []) :
    (∃ i, dotIdx s (hi s) = some i ∧
      (∃ a, s.get? i = some a ∧ a.v = hi s) ∧
      ∀ j, j < i → ∀ b, s.get? j = some b → b.v ≠ hi s) ∧
    (∃ i, dotIdx s (lo s) = some i ∧
      (∃ a, s.get? i = some a ∧ a.v = lo s) ∧
      ∀ j, j < i → ∀ b, s.get? j = some b → b.v ≠ lo s) ∧
    (dotIdx series3 (hi series3) = some 1 ∧
      dotIdx series3 (lo series3) = some 0) := by
  refine ⟨?_, ?_, ?_, ?_⟩
  · obtain ⟨a, hmem, hav⟩ := (mem_values_iff s (hi s)).mp (hi_spec s h).1
    obtain ⟨i, hfind⟩ := findIndex_isSome_of_mem (fun p => p.v = hi s) s a hmem (by simp [hav])
    obtain ⟨⟨b, hb, hpb⟩, hprev⟩ := findIndex_some_spec _ s i hfind
    refine ⟨i, hfind, ⟨b, hb, by simp at hpb; exact hpb⟩, ?_⟩
    intro j hj c hc
    have hf := hprev j hj c hc
    simp at hf
    exact hf
  · obtain ⟨a, hmem, hav⟩ := (mem_values_iff s (lo s)).mp (lo_spec s h).1
    obtain ⟨i, hfind⟩ := findIndex_isSome_of_mem (fun p => p.v = lo s) s a hmem (by simp [hav])
    obtain ⟨⟨b, hb, hpb⟩, hprev⟩ := findIndex_some_spec _ s i hfind
    refine ⟨i, hfind, ⟨b, hb, by simp at hpb; exact hpb⟩, ?_⟩
    intro j hj c hc
    have hf := hprev j hj c hc
    simp at hf
    exact hf
  · norm_num [dotIdx, findIndex, hi, values, series3, max_def]
  · norm_num [dotIdx, findIndex, lo, values, series3, min_def]

/-- Witness for C5 at the scenario series. -/
theorem C5_first_extreme_marker_witness :
    series3 ≠ [] ∧
    ((∃ i, dotIdx series3 (hi series3) = some i ∧
        (∃ a, series3.get? i = some a ∧ a.v = hi series3) ∧
        ∀ j, j < i → ∀ b, series3.get? j = some b → b.v ≠ hi series3) ∧
      (∃ i, dotIdx series3 (lo series3) = some i ∧
        (∃ a, series3.get? i = some a ∧ a.v = lo series3) ∧
        ∀ j, j < i → ∀ b, series3.get? j = some b → b.v ≠ lo series3) ∧
      (dotIdx series3 (hi series3) = some 1 ∧
        dotIdx series3 (lo series3) = some 0)) :=
  ⟨by simp [series3], C5_first_extreme_marker series3 (by simp [series3])⟩

end RateSense

namespace RateSense

/-! ### Tick-selector arithmetic -/

theorem lt_cnt_iff (n s k : ℕ) (hs : 1 ≤ s) : k < (n + s - 1) / s ↔ k * s < n := by
  rw [Nat.lt_iff_add_one_le, Nat.le_div_iff_mul_le hs, Nat.succ_mul]
  omega

theorem strideWalk_mem (n s k : ℕ) (hs : 1 ≤ s) (hk : k * s < n) :
    k * s ∈ strideWalk n s := by
  rw [strideWalk]
  exact List.mem_map.mpr ⟨k, List.mem_range.mpr ((lt_cnt_iff n s k hs).mpr hk), rfl⟩

theorem strideWalk_mem_elim (n s m : ℕ) (hm : m ∈ strideWalk n s) :
    ∃ k, k < (n + s - 1) / s ∧ m = k * s := by
  rw [strideWalk] at hm
  obtain ⟨k, hk, rfl⟩ := List.mem_map.mp hm
  exact ⟨k, List.mem_range.mp hk, rfl⟩

theorem strideWalk_pairwise (n s : ℕ) (hs : 1 ≤ s) :
    List.Pairwise (· < ·) (strideWalk n s) := by
  rw [strideWalk]
  exact (List.pairwise_lt_range _).map _
    (fun a b hab => Nat.mul_lt_mul_of_pos_right hab hs)

theorem cnt_eq (n s : ℕ) (hn : 1 ≤ n) (hs : 1 ≤ s) :
    (n + s - 1) / s = (n - 1) / s + 1 := by
  have h1 : n + s - 1 = (n - 1) + s := by omega
  rw [h1, Nat.add_div_right _ hs]

theorem strideWalk_getLast (n s : ℕ) (hn : 1 ≤ n) (hs : 1 ≤ s) :
    (strideWalk n s).getLast? = some ((n - 1) / s * s) := by
  rw [strideWalk, cnt_eq n s hn hs, List.range_succ, List.map_append]
  simp

theorem step_pos (n : ℕ) : 1 ≤ step n := le_max_left 1 _

theorem tickIdx_eq (n : ℕ) (hn : 1 ≤ n) :
    tickIdx n = if (n - 1) % step n = 0 then strideWalk n (step n)
                else strideWalk n (step n) ++ [n - 1] := by
  have hs : 0 < step n := step_pos n
  have hdvd := (@Nat.dvd_iff_mod_eq_zero (step n) (n - 1)).symm
  rw [tickIdx]
  rw [strideWalk_getLast n (step n) hn hs]
  by_cases hmod : (n - 1) % step n = 0
  · rw [if_pos hmod,
      if_pos (by rw [Option.some.injEq]
                 exact Nat.div_mul_cancel (hdvd.mp hmod))]
  · rw [if_neg hmod, if_neg ?_]
    intro he
    rw [Option.some.injEq] at he
    exact hmod (hdvd.mpr ⟨(n - 1) / step n, by rw [mul_comm]; exact he.symm⟩)

theorem strideWalk_le (n s m : ℕ) (hn : 1 ≤ n) (hs : 1 ≤ s)
    (hm : m ∈ strideWalk n s) : m ≤ (n - 1) / s * s ∧ m < n := by
  obtain ⟨k, hk, rfl⟩ := strideWalk_mem_elim n s m hm
  have h1 : k ≤ (n - 1) / s := by
    rw [cnt_eq n s hn hs] at hk
    omega
  exact ⟨Nat.mul_le_mul_right s h1, (lt_cnt_iff n s k hs).mp hk⟩

/-- C3: for every `n ≥ 2` the x-axis tick selector uses the stride
`step n = max 1 ((n-1)/(targetCount-1))` with `targetCount = min 8 n`;
the resulting index list is strictly increasing, contains every stride
multiple `0, s, 2s, …` below `n`, contains nothing but stride multiples
and the final index, always includes the final index `n - 1`, and equals
the stride walk with `n - 1` appended exactly when the walk does not
already end on it. -/
theorem C3_tick_selection (n : ℕ) (hn : 2 ≤ n) :
    step n = max 1 ((n - 1) / (min 8 n - 1)) ∧
    List.Chain' (· < ·) (tickIdx n) ∧
    (n - 1) ∈ tickIdx n ∧
    (∀ k, k * step n < n → k * step n ∈ tickIdx n) ∧
    (∀ m ∈ tickIdx n, m = n - 1 ∨ (step n ∣ m ∧ m < n)) ∧
    tickIdx n = (if (n - 1) % step n = 0 then strideWalk n (step n)
                 else strideWalk n (step n) ++ [n - 1]) := by
  have hn1 : 1 ≤ n := by omega
  have hs : 1 ≤ step n := step_pos n
  have heq := tickIdx_eq n hn1
  have hpw := strideWalk_pairwise n (step n) hs
  have hlast := Nat.div_add_mod (n - 1) (step n)
  rw [Nat.mul_comm] at hlast
  have hdvdeq : (n - 1) % step n = 0 → (n - 1) / step n * step n = n - 1 := by
    intro hmod
    exact Nat.div_mul_cancel ((@Nat.dvd_iff_mod_eq_zero (step n) (n - 1)).mpr hmod)
  refine ⟨rfl, ?_, ?_, ?_, ?_, heq⟩
  · rw [List.chain'_iff_pairwise, heq]
    by_cases hmod : (n - 1) % step n = 0
    · rw [if_pos hmod]; exact hpw
    · rw [if_neg hmod]
      refine List.pairwise_append.mpr ⟨hpw, List.pairwise_singleton _ _, ?_⟩
      intro a ha b hb
      obtain rfl := List.mem_singleton.mp hb
      have hle := (strideWalk_le n (step n) a hn1 hs ha).1
      omega
  · rw [heq]
    by_cases hmod : (n - 1) % step n = 0
    · rw [if_pos hmod]
      have := strideWalk_mem n (step n) ((n - 1) / step n) hs
        (by rw [hdvdeq hmod]; omega)
      rwa [hdvdeq hmod] at this
    · rw [if_neg hmod]
      exact List.mem_append_right _ (List.mem_singleton.mpr rfl)
  · intro k hk
    rw [heq]
    by_cases hmod : (n - 1) % step n = 0
    · rw [if_pos hmod]; exact strideWalk_mem n (step n) k hs hk
    · rw [if_neg hmod]
      exact List.mem_append_left _ (strideWalk_mem n (step n) k hs hk)
  · intro m hm
    rw [heq] at hm
    by_cases hmod : (n - 1) % step n = 0
    · rw [if_pos hmod] at hm
      obtain ⟨k, _, rfl⟩ := strideWalk_mem_elim n (step n) m hm
      exact Or.inr ⟨Dvd.intro_left k rfl, (strideWalk_le n (step n) _ hn1 hs hm).2⟩
    · rw [if_neg hmod] at hm
      rcases List.mem_append.mp hm with hm | hm
      · obtain ⟨k, _, rfl⟩ := strideWalk_mem_elim n (step n) m hm
        exact Or.inr ⟨Dvd.intro_left k rfl, (strideWalk_le n (step n) _ hn1 hs hm).2⟩
      · exact Or.inl (List.mem_singleton.mp hm)

/-- Witness for C3 at `n = 10`. -/
theorem C3_tick_selection_witness :
    2 ≤ 10 ∧
    (step 10 = max 1 ((10 - 1) / (min 8 10 - 1)) ∧
      List.Chain' (· < ·) (tickIdx 10) ∧
      (10 - 1) ∈ tickIdx 10 ∧
      (∀ k, k * step 10 < 10 → k * step 10 ∈ tickIdx 10) ∧
      (∀ m ∈ tickIdx 10, m = 10 - 1 ∨ (step 10 ∣ m ∧ m < 10)) ∧
      tickIdx 10 = (if (10 - 1) % step 10 = 0 then strideWalk 10 (step 10)
                    else strideWalk 10 (step 10) ++ [10 - 1])) :=
  ⟨by norm_num, C3_tick_selection 10 (by norm_num)⟩

end RateSense

namespace RateSense

/-! ### Coordinate-range bounds -/

theorem xs_frac_bounds (n i : ℕ) (hin : i < n) (c : ℚ) (hc : 0 ≤ c) :
    0 ≤ ((i : ℚ) * c) / ((max (n - 1) 1 : ℕ) : ℚ) ∧
    ((i : ℚ) * c) / ((max (n - 1) 1 : ℕ) : ℚ) ≤ c := by
  have hd1 : 1 ≤ max (n - 1) 1 := le_max_right _ _
  have hd0 : 0 < ((max (n - 1) 1 : ℕ) : ℚ) := by exact_mod_cast hd1
  have hile : i ≤ max (n - 1) 1 := by omega
  have hid : (i : ℚ) ≤ ((max (n - 1) 1 : ℕ) : ℚ) := by exact_mod_cast hile
  have hi0 : (0 : ℚ) ≤ (i : ℚ) := Nat.cast_nonneg i
  constructor
  · exact div_nonneg (mul_nonneg hi0 hc) (le_of_lt hd0)
  · rw [div_le_iff₀ hd0]
    nlinarith

theorem ys_frac_bounds (l h v c : ℚ) (hlh : l < h) (hc : 0 ≤ c)
    (h1 : l ≤ v) (h2 : v ≤ h) :
    0 ≤ (v - l) * c / (h - l) ∧ (v - l) * c / (h - l) ≤ c := by
  have hd : 0 < h - l := by linarith
  constructor
  · exact div_nonneg (mul_nonneg (by linarith) hc) (le_of_lt hd)
  · rw [div_le_iff₀ hd]
    nlinarith

/-- C10: for every non-empty series, every index `i < n` and every value
`v` with `lo ≤ v ≤ hi`, the mapped coordinates stay inside the plot area
of both renderer variants: `xsA` in `[P, W-P]`, `ysA` in `[P, H-P]`,
`xsB` in `[M.left, W-M.right]`, `ysB` in `[M.top, H-M.bottom]`, the flat
(`hi = lo`) and single-point (`n = 1`) branches included. -/
theorem C10_coordinates_in_plot (s : List Sample) (_hne : s ≠ []) (i : ℕ)
    (hilen : i < s.length) (v : ℚ) (hv1 : lo s ≤ v) (hv2 : v ≤ hi s) :
    (P ≤ xsA s.length i ∧ xsA s.length i ≤ W - P) ∧
    (P ≤ ysA (hi s) (lo s) v ∧ ysA (hi s) (lo s) v ≤ H - P) ∧
    (Mleft ≤ xsB s.length i ∧ xsB s.length i ≤ W - Mright) ∧
    (Mtop ≤ ysB (hi s) (lo s) v ∧ ysB (hi s) (lo s) v ≤ H - Mbottom) := by
  obtain ⟨hx0A, hx1A⟩ := xs_frac_bounds s.length i hilen (W - 2 * P)
    (by norm_num [W, P])
  obtain ⟨hx0B, hx1B⟩ := xs_frac_bounds s.length i hilen plotW
    (by norm_num [plotW, W, Mleft, Mright])
  refine ⟨⟨?_, ?_⟩, ?_, ⟨?_, ?_⟩, ?_⟩
  · rw [xsA]; linarith
  · rw [xsA]; linarith
  · by_cases hfl : hi s = lo s
    · rw [ysA, if_pos hfl]
      norm_num [H, P]
    · have hlh : lo s < hi s := lt_of_le_of_ne (le_trans hv1 hv2) (Ne.symm hfl)
      obtain ⟨hy0, hy1⟩ := ys_frac_bounds (lo s) (hi s) v (H - 2 * P) hlh
        (by norm_num [H, P]) hv1 hv2
      rw [ysA, if_neg hfl]
      constructor <;> linarith
  · rw [xsB]; linarith
  · rw [xsB]
    norm_num [Mleft, plotW, W, Mright] at hx1B ⊢
    linarith
  · by_cases hfl : hi s = lo s
    · rw [ysB, if_pos hfl]
      norm_num [Mtop, plotH, H, Mbottom]
    · have hlh : lo s < hi s := lt_of_le_of_ne (le_trans hv1 hv2) (Ne.symm hfl)
      obtain ⟨hy0, hy1⟩ := ys_frac_bounds (lo s) (hi s) v plotH hlh
        (by norm_num [plotH, H, Mtop, Mbottom]) hv1 hv2
      rw [ysB, if_neg hfl]
      norm_num [Mtop, plotH, H, Mbottom] at hy0 hy1 ⊢
      constructor <;> linarith

/-- Witness for C10 at the scenario series, index 1, value 1.15. -/
theorem C10_coordinates_in_plot_witness :
    (series3 ≠ [] ∧ 1 < series3.length ∧
      lo series3 ≤ 23 / 20 ∧ (23 / 20 : ℚ) ≤ hi series3) ∧
    ((P ≤ xsA series3.length 1 ∧ xsA series3.length 1 ≤ W - P) ∧
      (P ≤ ysA (hi series3) (lo series3) (23 / 20) ∧
        ysA (hi series3) (lo series3) (23 / 20) ≤ H - P) ∧
      (Mleft ≤ xsB series3.length 1 ∧ xsB series3.length 1 ≤ W - Mright) ∧
      (Mtop ≤ ysB (hi series3) (lo series3) (23 / 20) ∧
        ysB (hi series3) (lo series3) (23 / 20) ≤ H - Mbottom)) :=
  ⟨⟨by simp [series3], by simp [series3],
      by norm_num [lo, values, series3, min_def],
      by norm_num [hi, values, series3, max_def]⟩,
    C10_coordinates_in_plot series3 (by simp [series3]) 1 (by simp [series3])
      (23 / 20)
      (by norm_num [lo, values, series3, min_def])
      (by norm_num [hi, values, series3, max_def])⟩

end RateSense
